import Mathlib

/-!
# Verification of the AvidaGP virtual CPU (src/hardware/AvidaGP.h)

A shallow embedding of the scope-driven linear-GP virtual machine
`emp::AvidaGP`.  Register values are C++ `double`s in the source; here they
are modelled as exact rationals (`ℚ`): every claim checked below concerns
either control flow, bookkeeping state, or small-integer arithmetic on which
IEEE-754 doubles behave exactly.

Fallible operations are modelled in the `Option` monad: `none` corresponds to
an `emp_assert` failure or an out-of-bounds container access (undefined
behaviour in release builds).  The mutual recursion between `ProcessInst` and
`UpdateScope` in the source is not structurally terminating (a genome can
make the engine re-dispatch forever), so the embedding carries an explicit
fuel parameter that is decremented on every entry; `none` is returned when
fuel is exhausted.  Theorems about single instructions hold for every
positive fuel value.

Stacks (`scope_stack`, `reg_stack`, `call_stack`, each auxiliary stack) are
lists whose head is the C++ `back()` (top).
-/

namespace AvidaGP

/-- The opcodes of `AvidaGP::InstID`, in source order. -/
inductive InstID where
  | Inc | Dec | Not | SetReg | Add | Sub | Mult | Div | Mod
  | TestEqu | TestNEqu | TestLess
  | If | While | Countdown | Break | Scope | Define | Call
  | Push | Pop | Input | Output | CopyVal | ScopeReg
  | Unknown
deriving DecidableEq, Repr

/-- `AvidaGP::ScopeType`. -/
inductive ScopeType where
  | ROOT | BASIC | LOOP | FUNCTION
deriving DecidableEq, Repr

/-- `AvidaGP::Instruction`: an opcode and three (non-negative) arguments. -/
structure Inst where
  id : InstID
  arg0 : Nat
  arg1 : Nat
  arg2 : Nat
deriving DecidableEq, Repr

/-- `AvidaGP::ScopeInfo`: one frame of the scope stack. -/
structure ScopeInfo where
  scope : Nat
  type : ScopeType
  start_pos : Nat
deriving DecidableEq, Repr

/-- `AvidaGP::RegBackup`: one scoped register snapshot. -/
structure RegBackup where
  scope : Nat
  reg_id : Nat
  value : ℚ
deriving DecidableEq, Repr

/-- The virtual CPU state of `class AvidaGP`.  The fixed-size
`emp::array<_,16>` members are lists that every operation keeps at
length 16. -/
structure AvidaState where
  genome : List Inst
  regs : List ℚ
  inputs : List ℚ
  outputs : List ℚ
  auxStacks : List (List ℚ)
  fun_starts : List Int
  inst_ptr : Nat
  scope_stack : List ScopeInfo
  reg_stack : List RegBackup
  call_stack : List Nat
  errors : Nat
deriving DecidableEq, Repr

/-- `REGS = 16` in the source. -/
def REGS : Nat := 16

/-- `STACK_CAP = 16` in the source. -/
def STACK_CAP : Nat := 16

/-- `emp::array<T,16>::operator[]` (read): `emp_assert(pos < N)` then the raw
access.  `none` models the assertion failure / out-of-bounds access. -/
def arrGet {α : Type} (l : List α) (pos : Nat) : Option α :=
  if pos < REGS then l.get? pos else none

/-- `emp::array<T,16>::operator[]` (write): `emp_assert(pos < N)` then the
raw update. -/
def arrSet {α : Type} (l : List α) (pos : Nat) (v : α) : Option (List α) :=
  if pos < REGS then some (l.set pos v) else none

/-- C++ `int` → `size_t` conversion (modular, 64-bit). -/
def intToSize (i : Int) : Nat := (i % (2 ^ 64 : Int)).toNat

/-!
Rational arithmetic.  Mathlib's `Rat` operations do not reduce under `decide`
(they are compiler-implemented), so the interpreter uses the following
kernel-reducible formulations; each is proved equal to the corresponding
standard operation immediately below, so every theorem can be read with the
ordinary `+`, `-`, `*`, `/` on `ℚ`.
-/

/-- Rational addition, kernel-reducible form. -/
def qadd (a b : ℚ) : ℚ := mkRat (a.num * b.den + b.num * a.den) (a.den * b.den)

/-- Rational subtraction, kernel-reducible form. -/
def qsub (a b : ℚ) : ℚ := mkRat (a.num * b.den - b.num * a.den) (a.den * b.den)

/-- Rational multiplication, kernel-reducible form. -/
def qmul (a b : ℚ) : ℚ := mkRat (a.num * b.num) (a.den * b.den)

/-- Rational inverse, kernel-reducible form. -/
def qinv (a : ℚ) : ℚ := Rat.divInt a.den a.num

/-- Rational division, kernel-reducible form. -/
def qdiv (a b : ℚ) : ℚ := qmul a (qinv b)

/-- `AvidaGP::PopStack`: return 0 and leave the stack alone when empty,
otherwise pop the top value. -/
def popStack (auxStacks : List (List ℚ)) (id : Nat) : Option (ℚ × List (List ℚ)) := do
  let s ← arrGet auxStacks id
  match s with
  | [] => pure (0, auxStacks)
  | v :: rest => do
      let auxStacks' ← arrSet auxStacks id rest
      pure (v, auxStacks')

/-- `AvidaGP::PushStack`: silently drop the push when the stack holds
`STACK_CAP` values. -/
def pushStack (auxStacks : List (List ℚ)) (id : Nat) (v : ℚ) :
    Option (List (List ℚ)) := do
  let s ← arrGet auxStacks id
  if STACK_CAP ≤ s.length then pure auxStacks
  else arrSet auxStacks id (v :: s)

/-- `AvidaGP::CurScope`: `scope_stack.back().scope` (undefined on an empty
stack). -/
def curScope (st : AvidaState) : Option Nat :=
  st.scope_stack.head?.map (·.scope)

/-- `AvidaGP::CurScopeType`. -/
def curScopeTy (st : AvidaState) : Option ScopeType :=
  st.scope_stack.head?.map (·.type)

/-- The restore loop at the start of `AvidaGP::ExitScope`: pop backup entries
whose `scope` equals the current scope, writing each saved value back into
the register file. -/
def restoreRegs (regs : List ℚ) (cur : Nat) :
    List RegBackup → Option (List ℚ × List RegBackup)
  | [] => pure (regs, [])
  | b :: rest =>
      if b.scope = cur then do
        let regs' ← arrSet regs b.reg_id b.value
        restoreRegs regs' cur rest
      else pure (regs, b :: rest)

/-- `AvidaGP::ExitScope`: assert the stack can be popped (`1 < size ≤ REGS`),
restore this scope's register backups, then pop the top frame. -/
def exitScope (st : AvidaState) : Option AvidaState :=
  if 1 < st.scope_stack.length ∧ st.scope_stack.length ≤ REGS then do
    let cur ← curScope st
    let (regs', rstk') ← restoreRegs st.regs cur st.reg_stack
    pure { st with regs := regs', reg_stack := rstk',
                   scope_stack := st.scope_stack.tail }
  else none

/-- The `while (scope_stack.size() > 1) ExitScope();` loop of
`AvidaGP::ResetIP`, as a bounded iteration.  Each successful `exitScope`
shortens the scope stack by one, so running it `scope_stack.length` times is
exactly the C++ loop. -/
def exitAllAux : Nat → AvidaState → Option AvidaState
  | 0, st => if 1 < st.scope_stack.length then none else pure st
  | n + 1, st =>
      if 1 < st.scope_stack.length then (exitScope st).bind (exitAllAux n)
      else pure st

/-- Forcibly exit all non-root scopes. -/
def exitAllScopes (st : AvidaState) : Option AvidaState :=
  exitAllAux st.scope_stack.length st

/-- `AvidaGP::ResetIP`: `inst_ptr = 0`, exit all non-root scopes, clear the
call stack. -/
def resetIP (st : AvidaState) : Option AvidaState := do
  let st₁ ← exitAllScopes { st with inst_ptr := 0 }
  pure { st₁ with call_stack := [] }

/-- The register file after `ResetHardware`: `regs[i] = i`. -/
def initRegs : List ℚ := (List.range REGS).map (fun i => (i : ℚ))

/-- `AvidaGP::ResetHardware`: reinitialise registers, buffers, auxiliary
stacks, `fun_starts` and `errors`, then `ResetIP`. -/
def resetHardware (st : AvidaState) : Option AvidaState :=
  resetIP { st with
    regs := initRegs
    inputs := List.replicate REGS 0
    outputs := List.replicate REGS 0
    auxStacks := List.replicate REGS []
    fun_starts := List.replicate REGS (-1)
    errors := 0 }

/-- `AvidaGP::Reset`: clear the genome, then reset the hardware. -/
def reset (st : AvidaState) : Option AvidaState :=
  resetHardware { st with genome := [] }

/-- The state built by the `AvidaGP()` constructor (initial scope frame
`(0, ROOT, 0)`, then `Reset()`). -/
def initState : AvidaState where
  genome := []
  regs := initRegs
  inputs := List.replicate REGS 0
  outputs := List.replicate REGS 0
  auxStacks := List.replicate REGS []
  fun_starts := List.replicate REGS (-1)
  inst_ptr := 0
  scope_stack := [⟨0, .ROOT, 0⟩]
  reg_stack := []
  call_stack := []
  errors := 0

/-- `AvidaGP::InstScope`: the scope an instruction declares (0 = none). -/
def instScope (i : Inst) : Nat :=
  match i.id with
  | .If | .While | .Countdown | .Define => i.arg1 + 1
  | .Scope => i.arg0 + 1
  | _ => 0

/-- The skip-forward loop of `AvidaGP::BypassScope`, returning the new
`inst_ptr`.  `scope` is the already-incremented target.  The loop advances at
most `|genome|` times, so `|genome|` fuel makes it exact. -/
def bypassLoop (g : List Inst) (scope : Nat) : Nat → Nat → Nat
  | 0, ip => ip
  | f + 1, ip =>
      if ip + 1 < g.length then
        let s := instScope (g.getD (ip + 1) ⟨.Unknown, 0, 0, 0⟩)
        if s ≠ 0 ∧ s ≤ scope then ip
        else bypassLoop g scope f (ip + 1)
      else ip

/-- `AvidaGP::BypassScope`: fast-forward to the end of the given scope,
always dropping out of the innermost scope first. -/
def bypassScope (st : AvidaState) (scope_arg : Nat) : Option AvidaState := do
  let scope := scope_arg + 1
  let cur ← curScope st
  if cur < scope then pure st
  else do
    let st₁ ← exitScope st
    pure { st₁ with
      inst_ptr := bypassLoop st₁.genome scope st₁.genome.length st₁.inst_ptr }

mutual

/-- `AvidaGP::ProcessInst`: the opcode dispatcher.  Fuel is consumed on every
entry; all recursion flows through `updateScope`'s re-dispatch. -/
def processInst : Nat → AvidaState → Inst → Option AvidaState
  | 0, _, _ => none
  | fuel + 1, st, inst =>
    match inst.id with
    | .Inc => do
        let v ← arrGet st.regs inst.arg0
        let r ← arrSet st.regs inst.arg0 (qadd v 1)
        pure { st with regs := r }
    | .Dec => do
        let v ← arrGet st.regs inst.arg0
        let r ← arrSet st.regs inst.arg0 (qsub v 1)
        pure { st with regs := r }
    | .Not => do
        let v ← arrGet st.regs inst.arg0
        let r ← arrSet st.regs inst.arg0 (if v = 0 then 1 else 0)
        pure { st with regs := r }
    | .SetReg => do
        let r ← arrSet st.regs inst.arg0 ((inst.arg1 : ℚ))
        pure { st with regs := r }
    | .Add => do
        let va ← arrGet st.regs inst.arg0
        let vb ← arrGet st.regs inst.arg1
        let r ← arrSet st.regs inst.arg2 (qadd va vb)
        pure { st with regs := r }
    | .Sub => do
        let va ← arrGet st.regs inst.arg0
        let vb ← arrGet st.regs inst.arg1
        let r ← arrSet st.regs inst.arg2 (qsub va vb)
        pure { st with regs := r }
    | .Mult => do
        let va ← arrGet st.regs inst.arg0
        let vb ← arrGet st.regs inst.arg1
        let r ← arrSet st.regs inst.arg2 (qmul va vb)
        pure { st with regs := r }
    | .Div => do
        let denom ← arrGet st.regs inst.arg1
        if denom = 0 then pure { st with errors := st.errors + 1 }
        else do
          let va ← arrGet st.regs inst.arg0
          let r ← arrSet st.regs inst.arg2 (qdiv va denom)
          pure { st with regs := r }
    | .Mod => do
        let base ← arrGet st.regs inst.arg1
        if base = 0 then pure { st with errors := st.errors + 1 }
        else do
          let va ← arrGet st.regs inst.arg0
          let r ← arrSet st.regs inst.arg2 (qdiv va base)
          pure { st with regs := r }
    | .TestEqu => do
        let va ← arrGet st.regs inst.arg0
        let vb ← arrGet st.regs inst.arg1
        let r ← arrSet st.regs inst.arg2 (if va = vb then 1 else 0)
        pure { st with regs := r }
    | .TestNEqu => do
        let va ← arrGet st.regs inst.arg0
        let vb ← arrGet st.regs inst.arg1
        let r ← arrSet st.regs inst.arg2 (if va = vb then 0 else 1)
        pure { st with regs := r }
    | .TestLess => do
        let va ← arrGet st.regs inst.arg0
        let vb ← arrGet st.regs inst.arg1
        let r ← arrSet st.regs inst.arg2 (if va < vb then 1 else 0)
        pure { st with regs := r }
    | .If => do
        let (entered, st₁) ← updateScope fuel st inst.arg1 .BASIC
        if entered then do
          let v ← arrGet st₁.regs inst.arg0
          if v = 0 then bypassScope st₁ inst.arg1 else pure st₁
        else pure st₁
    | .While => do
        let (entered, st₁) ← updateScope fuel st inst.arg1 .LOOP
        if entered then do
          let v ← arrGet st₁.regs inst.arg0
          if v = 0 then bypassScope st₁ inst.arg1 else pure st₁
        else pure st₁
    | .Countdown => do
        let (entered, st₁) ← updateScope fuel st inst.arg1 .LOOP
        if entered then do
          let v ← arrGet st₁.regs inst.arg0
          if v = 0 then bypassScope st₁ inst.arg1
          else do
            let r ← arrSet st₁.regs inst.arg0 (qsub v 1)
            pure { st₁ with regs := r }
        else pure st₁
    | .Break => bypassScope st inst.arg0
    | .Scope => do
        let (_, st₁) ← updateScope fuel st inst.arg0 .BASIC
        pure st₁
    | .Define => do
        let (entered, st₁) ← updateScope fuel st inst.arg1 .BASIC
        if entered then do
          let fs ← arrSet st₁.fun_starts inst.arg0 (st₁.inst_ptr : Int)
          bypassScope { st₁ with fun_starts := fs } inst.arg1
        else pure st₁
    | .Call => do
        let f ← arrGet st.fun_starts inst.arg0
        let def_pos := intToSize f
        if st.genome.length ≤ def_pos then pure st
        else do
          let dInst ← st.genome.get? def_pos
          if dInst.id ≠ .Define then pure st
          else do
            let (entered, st₁) ← updateScope fuel st dInst.arg1 .FUNCTION
            if entered then
              pure { st₁ with
                call_stack := (st₁.inst_ptr + 1) :: st₁.call_stack
                inst_ptr := def_pos + 1 }
            else pure st₁
    | .Push => do
        let v ← arrGet st.regs inst.arg0
        let stks ← pushStack st.auxStacks inst.arg1 v
        pure { st with auxStacks := stks }
    | .Pop => do
        let (v, stks) ← popStack st.auxStacks inst.arg0
        let r ← arrSet st.regs inst.arg1 v
        pure { st with auxStacks := stks, regs := r }
    | .Input => do
        let v ← arrGet st.inputs inst.arg0
        let r ← arrSet st.regs inst.arg1 v
        pure { st with regs := r }
    | .Output => do
        let v ← arrGet st.regs inst.arg0
        let o ← arrSet st.outputs inst.arg1 v
        pure { st with outputs := o }
    | .CopyVal => do
        let v ← arrGet st.regs inst.arg0
        let r ← arrSet st.regs inst.arg1 v
        pure { st with regs := r }
    | .ScopeReg => do
        let cur ← curScope st
        let v ← arrGet st.regs inst.arg0
        pure { st with reg_stack := ⟨cur, inst.arg0, v⟩ :: st.reg_stack }
    | .Unknown => none

/-- `AvidaGP::UpdateScope`.  Note that the C++ recursion in the BASIC/ROOT
branch passes the already-incremented scope value (the parameter was mutated
by `new_scope++`), which is mirrored here by recursing on `ns`. -/
def updateScope : Nat → AvidaState → Nat → ScopeType → Option (Bool × AvidaState)
  | 0, _, _, _ => none
  | fuel + 1, st, new_scope, ty => do
    let cur ← curScope st
    let ns := new_scope + 1
    if cur < ns then
      pure (true, { st with scope_stack := ⟨ns, ty, st.inst_ptr⟩ :: st.scope_stack })
    else do
      let cty ← curScopeTy st
      match cty with
      | .LOOP => do
          let fr ← st.scope_stack.head?
          let st₁ ← exitScope { st with inst_ptr := fr.start_pos }
          let i ← st₁.genome.get? st₁.inst_ptr
          let st₂ ← processInst fuel st₁ i
          pure (false, st₂)
      | .FUNCTION => do
          let rp ← st.call_stack.head?
          let st₁ ←
            if { st with inst_ptr := rp }.genome.length ≤ rp then
              resetIP { st with inst_ptr := rp }
            else
              exitScope { st with inst_ptr := rp, call_stack := st.call_stack.tail }
          let i ← st₁.genome.get? st₁.inst_ptr
          let st₂ ← processInst fuel st₁ i
          pure (false, st₂)
      | _ => do
          let st₁ ← exitScope st
          updateScope fuel st₁ ns ty

end

/-- `AvidaGP::SingleProcess`: wrap the instruction pointer if needed,
dispatch the pointed-to instruction, then advance the (possibly changed)
instruction pointer. -/
def singleProcess (fuel : Nat) (st : AvidaState) : Option AvidaState := do
  let st₁ ← if st.genome.length ≤ st.inst_ptr then resetIP st else pure st
  let i ← st₁.genome.get? st₁.inst_ptr
  let st₂ ← processInst fuel st₁ i
  pure { st₂ with inst_ptr := st₂.inst_ptr + 1 }

/-- `AvidaGP::Process`: `num_inst` calls to `SingleProcess`. -/
def process (fuel : Nat) : Nat → AvidaState → Option AvidaState
  | 0, st => pure st
  | k + 1, st => (singleProcess fuel st).bind (process fuel k)

/-- `AvidaGP::SetGenome`. -/
def setGenome (st : AvidaState) (g : List Inst) : AvidaState :=
  { st with genome := g }

/-- `AvidaGP::PushInst`. -/
def pushInst (st : AvidaState) (i : Inst) : AvidaState :=
  { st with genome := st.genome ++ [i] }

/-- `AvidaGP::SetInst` (the genome write is bounds-checked). -/
def setInst (st : AvidaState) (pos : Nat) (i : Inst) : Option AvidaState :=
  if pos < st.genome.length then some { st with genome := st.genome.set pos i }
  else none

/-!
## The genome printer (`AvidaGP::PrintGenome`)

The printed stream is modelled as a list of lines, each a `List Char`
(`PrintGenome` writes one `'\n'` at the end of every emitted line).
-/

/-- The display name of each opcode, from the `AddInst` calls in
`AvidaGP::GetInstLib`. -/
def instName : InstID → List Char
  | .Inc => "Inc".toList
  | .Dec => "Dec".toList
  | .Not => "Not".toList
  | .SetReg => "SetReg".toList
  | .Add => "Add".toList
  | .Sub => "Sub".toList
  | .Mult => "Mult".toList
  | .Div => "Div".toList
  | .Mod => "Mod".toList
  | .TestEqu => "TestEqu".toList
  | .TestNEqu => "TestNEqu".toList
  | .TestLess => "TestLess".toList
  | .If => "If".toList
  | .While => "While".toList
  | .Countdown => "Countdown".toList
  | .Break => "Break".toList
  | .Scope => "Scope".toList
  | .Define => "Define".toList
  | .Call => "Call".toList
  | .Push => "Push".toList
  | .Pop => "Pop".toList
  | .Input => "Input".toList
  | .Output => "Output".toList
  | .CopyVal => "CopyVal".toList
  | .ScopeReg => "ScopeReg".toList
  | .Unknown => "Unknown".toList

/-- The declared argument count of each opcode, from `AvidaGP::GetInstLib`. -/
def instNumArgs : InstID → Nat
  | .Inc | .Dec | .Not | .Break | .Scope | .Call | .ScopeReg => 1
  | .SetReg | .If | .While | .Define | .Push | .Pop | .Input | .Output
  | .CopyVal => 2
  | .Add | .Sub | .Mult | .Div | .Mod | .TestEqu | .TestNEqu | .TestLess
  | .Countdown => 3
  | .Unknown => 0

/-- One printed instruction line, without indentation or the trailing arrow:
the opcode name followed by `' ' << args[i]` for each declared argument. -/
def instText (i : Inst) : List Char :=
  instName i.id ++
    ((([i.arg0, i.arg1, i.arg2].take (instNumArgs i.id)).map
        (fun a => ' ' :: Nat.toDigits 10 a)).flatten)

/-- The body of the `for` loop of `AvidaGP::PrintGenome`, producing the
emitted lines; the accumulator `cur` is the C++ local `cur_scope`. -/
def printGenomeLines : List Inst → Nat → List (List Char)
  | [], _ => []
  | inst :: rest, cur =>
      let ns := instScope inst
      let sep : List (List Char) :=
        if ns ≠ 0 ∧ ns = cur then [List.replicate cur ' ' ++ "----".toList]
        else []
      let cur1 := if ns ≠ 0 ∧ ns < cur then ns - 1 else cur
      let line := List.replicate cur1 ' ' ++ instText inst ++
        (if ns ≠ 0 ∧ cur1 < ns then " --> ".toList else [])
      let cur2 := if ns ≠ 0 then ns else cur1
      sep ++ (line :: printGenomeLines rest cur2)

/-- `AvidaGP::PrintGenome` as a single character stream (each line is
terminated by `'\n'`). -/
def printGenome (g : List Inst) : List Char :=
  ((printGenomeLines g 0).map (· ++ ['\n'])).flatten

/-- The per-line scope depth obtained by folding `InstScope` across the
instruction sequence exactly as `PrintGenome`'s `cur_scope` evolves: the
depth at which each emitted line (separator lines included) is printed. -/
def lineDepths : List Inst → Nat → List Nat
  | [], _ => []
  | inst :: rest, cur =>
      let ns := instScope inst
      let sep : List Nat := if ns ≠ 0 ∧ ns = cur then [cur] else []
      let cur1 := if ns ≠ 0 ∧ ns < cur then ns - 1 else cur
      let cur2 := if ns ≠ 0 then ns else cur1
      sep ++ (cur1 :: lineDepths rest cur2)

/-- Number of leading space characters of a printed line. -/
def leadingSpaces (l : List Char) : Nat :=
  (l.takeWhile (fun c => c = ' ')).length

/-!
## Invariants and concrete states used by the claims
-/

/-- The scope-stack invariant: non-empty, bottom frame `(0, ROOT, 0)`, and
`scope` values strictly increasing from bottom to top (the list head is the
top, so strictly decreasing along the list). -/
def ScopeOK (st : AvidaState) : Prop :=
  st.scope_stack ≠ [] ∧
  st.scope_stack.getLast? = some ⟨0, .ROOT, 0⟩ ∧
  List.Chain' (fun a b => b.scope < a.scope) st.scope_stack

/-- A genome containing no `Div` and no `Mod` instruction. -/
def noDivMod (g : List Inst) : Prop :=
  ∀ i ∈ g, i.id ≠ InstID.Div ∧ i.id ≠ InstID.Mod

/-- The countdown-loop genome of the spec's concrete scenario 2. -/
def cdGenome : List Inst :=
  [⟨.SetReg, 0, 3, 0⟩, ⟨.SetReg, 1, 0, 0⟩, ⟨.Countdown, 0, 1, 0⟩,
   ⟨.Inc, 1, 0, 0⟩]

/-- A freshly constructed VM loaded with the countdown genome. -/
def cdState : AvidaState := setGenome initState cdGenome

/-- The countdown run after step 1 (`SetReg 0 3`). -/
def cdS1 : AvidaState :=
  { cdState with regs := [3, 1, 2, 3, 4, 5, 6, 7, 8, 9, 10, 11, 12, 13, 14, 15],
                 inst_ptr := 1 }

/-- The countdown run after step 2 (`SetReg 1 0`). -/
def cdS2 : AvidaState :=
  { cdState with regs := [3, 0, 2, 3, 4, 5, 6, 7, 8, 9, 10, 11, 12, 13, 14, 15],
                 inst_ptr := 2 }

/-- The countdown run after step 3 (`Countdown 0 1` enters the loop scope and
decrements `r0`). -/
def cdS3 : AvidaState :=
  { cdState with regs := [2, 0, 2, 3, 4, 5, 6, 7, 8, 9, 10, 11, 12, 13, 14, 15],
                 inst_ptr := 3,
                 scope_stack := [⟨2, .LOOP, 2⟩, ⟨0, .ROOT, 0⟩] }

/-- The countdown run after step 4 (`Inc 1`); steps 5–8, 9–12, … repeat the
cycle `cdS1 → cdS2 → cdS3 → cdS4 → cdS1`. -/
def cdS4 : AvidaState :=
  { cdState with regs := [2, 1, 2, 3, 4, 5, 6, 7, 8, 9, 10, 11, 12, 13, 14, 15],
                 inst_ptr := 4,
                 scope_stack := [⟨2, .LOOP, 2⟩, ⟨0, .ROOT, 0⟩] }

/-- A state inside a FUNCTION scope whose saved return position (7) lies past
the end of the one-instruction genome: dispatching any structured instruction
with a lower scope triggers the end-of-genome function-return wrap. -/
def fwState : AvidaState :=
  { setGenome initState [⟨.Inc, 0, 0, 0⟩] with
      scope_stack := [⟨2, .FUNCTION, 0⟩, ⟨0, .ROOT, 0⟩],
      call_stack := [7] }

/-- The genome `[SetReg 3 9, Scope 0, ScopeReg 3]`: after three steps the
backup stack holds the snapshot `(1, 3, 9)` of register 3 taken inside scope
1, so the next `ResetHardware`'s forced scope exit restores 9 over the
freshly reset register. -/
def srGenome : List Inst :=
  [⟨.SetReg, 3, 9, 0⟩, ⟨.Scope, 0, 0, 0⟩, ⟨.ScopeReg, 3, 0, 0⟩]

/-- The genome `[Scope 0, Inc 5]`: the `Inc` line is printed at scope
depth 1. -/
def prGenome : List Inst := [⟨.Scope, 0, 0, 0⟩, ⟨.Inc, 5, 0, 0⟩]

/-!
## Helper lemmas
-/

theorem qadd_eq (a b : ℚ) : qadd a b = a + b := (Rat.add_def' a b).symm

theorem qsub_eq (a b : ℚ) : qsub a b = a - b := (Rat.sub_def' a b).symm

theorem qmul_eq (a b : ℚ) : qmul a b = a * b := by
  rw [qmul, Rat.mul_def, Rat.normalize_eq_mkRat]

theorem qdiv_eq (a b : ℚ) : qdiv a b = a / b := by
  rw [qdiv, qmul_eq, Rat.div_def, Rat.inv_def, qinv]


theorem arrGet_of_lt {α : Type} {l : List α} {pos : Nat} (h : pos < REGS) :
    arrGet l pos = l.get? pos := if_pos h

theorem arrGet_of_ge {α : Type} {l : List α} {pos : Nat} (h : REGS ≤ pos) :
    arrGet l pos = none := if_neg (Nat.not_lt.mpr h)

theorem lt_REGS_of_arrGet {α : Type} {l : List α} {pos : Nat} {v : α}
    (h : arrGet l pos = some v) : pos < REGS := by
  by_contra hc
  rw [arrGet_of_ge (Nat.not_lt.mp hc)] at h
  exact Option.noConfusion h

theorem get?_of_arrGet {α : Type} {l : List α} {pos : Nat} {v : α}
    (h : arrGet l pos = some v) : l.get? pos = some v := by
  rw [← arrGet_of_lt (lt_REGS_of_arrGet h)]; exact h

theorem lt_length_of_arrGet {α : Type} {l : List α} {pos : Nat} {v : α}
    (h : arrGet l pos = some v) : pos < l.length := by
  have := get?_of_arrGet h
  exact List.get?_eq_some.mp this |>.1

theorem arrSet_of_lt {α : Type} {l : List α} {pos : Nat} (v : α)
    (h : pos < REGS) : arrSet l pos v = some (l.set pos v) := if_pos h

theorem arrSet_of_ge {α : Type} {l : List α} {pos : Nat} (v : α)
    (h : REGS ≤ pos) : arrSet l pos v = none := if_neg (Nat.not_lt.mpr h)

theorem list_set_get_self {α : Type} {l : List α} {n : Nat} {v : α}
    (h : l.get? n = some v) : l.set n v = l := by
  induction l generalizing n with
  | nil => simp at h
  | cons a t ih =>
    cases n with
    | zero =>
      have hv : a = v := by simpa using h
      simp [hv]
    | succ m =>
      show a :: t.set m v = a :: t
      rw [ih h]

/-!
## Claim C1 — register indices and the modulo-R story
-/

/-- C1, counterexample: executing `Inc 16` is **not** a defined behaviour
acting on register `16 mod 16 = 0`; it fails the register-file bounds
assertion (out-of-bounds access), so the run is undefined (`none`). -/
theorem C1_counterexample :
    processInst 1 initState ⟨.Inc, 16, 0, 0⟩ = none ∧
    processInst 1 initState ⟨.Inc, 16, 0, 0⟩ ≠
      some { initState with regs := initState.regs.set 0 1 } := by
  exact ⟨by decide, by decide⟩

/-- C1 (amended): no modulo is applied to register indices.  An instruction
whose register-index argument is `≥ R = 16` fails the `emp::array` bounds
assertion (undefined behaviour, modelled as `none`) — shown here for the
register-file opcodes `Inc`, `Dec`, `Not`, `SetReg`, `Add`, `CopyVal`,
`Output`, `Push`; execution is defined only for register arguments in
`[0, R)`, where the effective register index is the argument itself. -/
theorem C1_no_modulo (fuel : Nat) (st : AvidaState) (a b c : Nat)
    (h : REGS ≤ a) :
    processInst (fuel + 1) st ⟨.Inc, a, b, c⟩ = none ∧
    processInst (fuel + 1) st ⟨.Dec, a, b, c⟩ = none ∧
    processInst (fuel + 1) st ⟨.Not, a, b, c⟩ = none ∧
    processInst (fuel + 1) st ⟨.SetReg, a, b, c⟩ = none ∧
    processInst (fuel + 1) st ⟨.Add, a, b, c⟩ = none ∧
    processInst (fuel + 1) st ⟨.CopyVal, a, b, c⟩ = none ∧
    processInst (fuel + 1) st ⟨.Output, a, b, c⟩ = none ∧
    processInst (fuel + 1) st ⟨.Push, a, b, c⟩ = none ∧
    (∀ a' v, arrGet st.regs a' = some v →
      processInst (fuel + 1) st ⟨.Inc, a', b, c⟩ =
        some { st with regs := st.regs.set a' (v + 1) }) := by
  refine ⟨?_, ?_, ?_, ?_, ?_, ?_, ?_, ?_, fun a' v hv => ?_⟩
  · simp [processInst, arrGet_of_ge h]
  · simp [processInst, arrGet_of_ge h]
  · simp [processInst, arrGet_of_ge h]
  · simp [processInst, arrSet_of_ge _ h]
  · simp [processInst, arrGet_of_ge h]
  · simp [processInst, arrGet_of_ge h]
  · simp [processInst, arrGet_of_ge h]
  · simp [processInst, arrGet_of_ge h]
  · simp [processInst, hv, arrSet_of_lt _ (lt_REGS_of_arrGet hv), qadd_eq]

/-- C1, witness for the amended theorem at a concrete input. -/
theorem C1_witness :
    processInst 1 initState ⟨.SetReg, 20, 3, 0⟩ = none ∧
    processInst 1 initState ⟨.Inc, 2, 0, 0⟩ =
      some { initState with regs := initState.regs.set 2 (2 + 1) } := by
  refine ⟨(C1_no_modulo 0 initState 20 3 0 (by decide)).2.2.2.1, ?_⟩
  exact (C1_no_modulo 0 initState 20 0 0 (by decide)).2.2.2.2.2.2.2.2
    2 2 (by decide)

/-!
## Claim C3 — processing an empty genome
-/

/-- C3: on an empty genome, `process(1)` wraps the instruction pointer and
then dereferences `genome[0]`, an out-of-bounds access (assertion failure /
undefined behaviour, modelled as `none`) — it is **not** a defined no-op,
though `process(0)` trivially is. -/
theorem C3_empty_genome_crashes :
    (∀ fuel, process fuel 1 initState = none) ∧
    (∀ fuel, process fuel 0 initState = some initState) :=
  ⟨fun _ => rfl, fun _ => rfl⟩

/-!
## Claim C4 — `Mod` divides (mirrors `Div`)
-/

/-- C4: when `regs[b] ≠ 0`, `Mod a b c` stores the quotient
`regs[a] / regs[b]` into `regs[c]` — behaving identically to `Div`, not
computing a remainder — and changes no other register. -/
theorem C4_mod_divides (fuel : Nat) (st : AvidaState) (a b c : Nat)
    (va vb : ℚ) (ha : arrGet st.regs a = some va)
    (hb : arrGet st.regs b = some vb) (hvb : vb ≠ 0) (hc : c < REGS) :
    processInst (fuel + 1) st ⟨.Mod, a, b, c⟩ =
      some { st with regs := st.regs.set c (va / vb) } ∧
    processInst (fuel + 1) st ⟨.Mod, a, b, c⟩ =
      processInst (fuel + 1) st ⟨.Div, a, b, c⟩ ∧
    (∀ j, j ≠ c → (st.regs.set c (va / vb)).get? j = st.regs.get? j) := by
  refine ⟨?_, ?_, ?_⟩
  · simp [processInst, ha, hb, hvb, arrSet_of_lt _ hc, qdiv_eq]
  · simp [processInst, ha, hb, hvb, arrSet_of_lt _ hc]
  · intro j hj
    exact List.get?_set_ne _ _ (fun hcj => hj hcj.symm)

/-- C4, witness: from the freshly reset state, `Mod 0 1 2` stores
`regs[0]/regs[1] = 0/1 = 0` into register 2. -/
theorem C4_witness :
    processInst 1 initState ⟨.Mod, 0, 1, 2⟩ =
      some { initState with regs := initState.regs.set 2 ((0 : ℚ) / 1) } :=
  (C4_mod_divides 0 initState 0 1 2 0 1 (by decide) (by decide) (by decide)
    (by decide)).1

/-!
## Claim C10 — Push/Pop round-trip
-/

/-- C10: when stack `s` holds fewer than `STACK_CAP = 16` entries, executing
`Push r s` and then `Pop s r` restores the state exactly: the pop returns the
value just pushed into the unchanged register `r`, and `stacks[s]` regains
its original contents. -/
theorem C10_push_pop_roundtrip (fuel : Nat) (st : AvidaState) (r s : Nat)
    (v : ℚ) (stk : List ℚ) (hr : arrGet st.regs r = some v)
    (hs : arrGet st.auxStacks s = some stk) (hcap : stk.length < STACK_CAP) :
    (processInst (fuel + 1) st ⟨.Push, r, s, 0⟩).bind
      (fun st₁ => processInst (fuel + 1) st₁ ⟨.Pop, s, r, 0⟩) = some st := by
  have hsR : s < REGS := lt_REGS_of_arrGet hs
  have hslen : s < st.auxStacks.length := lt_length_of_arrGet hs
  have hpush : pushStack st.auxStacks s v =
      some (st.auxStacks.set s (v :: stk)) := by
    simp only [pushStack, hs, Option.bind_eq_bind, Option.some_bind]
    rw [if_neg (Nat.not_le.mpr hcap), arrSet_of_lt _ hsR]
  have hget : arrGet (st.auxStacks.set s (v :: stk)) s = some (v :: stk) := by
    rw [arrGet_of_lt hsR, List.get?_set_eq_of_lt _ hslen]
  have hpop : popStack (st.auxStacks.set s (v :: stk)) s =
      some (v, st.auxStacks) := by
    simp [popStack, hget, arrSet_of_lt _ hsR, List.set_set,
      list_set_get_self (get?_of_arrGet hs)]
  simp [processInst, hr, hpush, hpop,
    arrSet_of_lt _ (lt_REGS_of_arrGet hr),
    list_set_get_self (get?_of_arrGet hr)]

/-- C10, witness: pushing register 5 onto (empty) stack 2 and popping back
restores the fresh state exactly. -/
theorem C10_witness :
    (processInst 1 initState ⟨.Push, 5, 2, 0⟩).bind
      (fun st₁ => processInst 1 st₁ ⟨.Pop, 2, 5, 0⟩) = some initState :=
  C10_push_pop_roundtrip 0 initState 5 2 5 [] (by decide) (by decide)
    (by decide)

/-!
## Claim C8 — the countdown-loop scenario
-/

theorem process_step (fuel k : Nat) {st st' : AvidaState}
    (h : singleProcess fuel st = some st') :
    process fuel (k + 1) st = process fuel k st' := by
  show (singleProcess fuel st).bind (process fuel k) = _
  rw [h, Option.some_bind]

theorem cd_step0 : singleProcess 10 cdState = some cdS1 := by decide

theorem cd_step1 : singleProcess 10 cdS1 = some cdS2 := by decide

theorem cd_step2 : singleProcess 10 cdS2 = some cdS3 := by decide

theorem cd_step3 : singleProcess 10 cdS3 = some cdS4 := by decide

/-- Falling off the genome end force-exits the LOOP scope (no loop-back) and
restarts the genome: step 4 wraps back to the state after step 1. -/
theorem cd_step4 : singleProcess 10 cdS4 = some cdS1 := by decide

/-- The 20-step countdown run ends in `cdS4` (the cycle
`cdS1 → cdS2 → cdS3 → cdS4 → cdS1` is traversed; 20 ≡ 0 mod 4). -/
theorem cd_run20 : process 10 20 cdState = some cdS4 := by
  rw [process_step 10 19 cd_step0, process_step 10 18 cd_step1,
    process_step 10 17 cd_step2, process_step 10 16 cd_step3,
    process_step 10 15 cd_step4, process_step 10 14 cd_step1,
    process_step 10 13 cd_step2, process_step 10 12 cd_step3,
    process_step 10 11 cd_step4, process_step 10 10 cd_step1,
    process_step 10 9 cd_step2, process_step 10 8 cd_step3,
    process_step 10 7 cd_step4, process_step 10 6 cd_step1,
    process_step 10 5 cd_step2, process_step 10 4 cd_step3,
    process_step 10 3 cd_step4, process_step 10 2 cd_step1,
    process_step 10 1 cd_step2, process_step 10 0 cd_step3]
  rfl

/-- C8, counterexample: after `process(20)` on the countdown genome the
registers are `r1 = 1` and `r0 = 2`, not `r1 = 3`, `r0 = 0`: the loop body
does not execute three times, because the genome ends inside the loop and the
end-of-genome wrap force-exits the LOOP scope without looping back, while
each wrapped pass re-runs `SetReg 1 0`. -/
theorem C8_counterexample :
    (process 10 20 cdState).bind (fun st => arrGet st.regs 1) = some 1 ∧
    (process 10 20 cdState).bind (fun st => arrGet st.regs 1) ≠ some 3 := by
  rw [cd_run20]
  exact ⟨by decide, by decide⟩

/-- C8 (amended): after `process(20)` on
`[SetReg 0 3, SetReg 1 0, Countdown 0 1, Inc 1]` the registers satisfy
`r1 = 1` and `r0 = 2`: the loop body executes once per wrapped pass over the
genome (the end-of-genome wrap exits the loop scope without looping back, and
each pass resets both registers before `Countdown` decrements `r0` once and
`Inc` increments `r1` once). -/
theorem C8_countdown_run :
    (process 10 20 cdState).bind (fun st => arrGet st.regs 1) = some 1 ∧
    (process 10 20 cdState).bind (fun st => arrGet st.regs 0) = some 2 ∧
    (process 10 20 cdState).map (fun st => st.errors) = some 0 := by
  rw [cd_run20]
  exact ⟨by decide, by decide, by decide⟩

/-!
## Structural lemmas for `exitScope` / `exitAllAux` / `resetIP`
-/

theorem restoreRegs_suffix (cur : Nat) :
    ∀ (bs : List RegBackup) (regs regs' : List ℚ) (bs' : List RegBackup),
      restoreRegs regs cur bs = some (regs', bs') → bs'.IsSuffix bs := by
  intro bs
  induction bs with
  | nil =>
    intro regs regs' bs' h
    simp [restoreRegs] at h
    simp [h.2.symm]
  | cons b rest ih =>
    intro regs regs' bs' h
    by_cases hb : b.scope = cur
    · simp only [restoreRegs, if_pos hb] at h
      rcases hset : arrSet regs b.reg_id b.value with _ | regs₁
      · rw [hset] at h
        simp at h
      · rw [hset] at h
        simp only [Option.bind_eq_bind, Option.some_bind] at h
        exact (ih regs₁ regs' bs' h).trans (List.suffix_cons b rest)
    · simp only [restoreRegs, if_neg hb, Option.pure_def, Option.some_inj] at h
      injection h with h1 h2
      rw [← h2]

theorem restoreRegs_nil (cur : Nat) (regs : List ℚ) :
    restoreRegs regs cur [] = some (regs, []) := rfl

/-- What `exitScope` does to each state component. -/
theorem exitScope_spec {st st' : AvidaState} (h : exitScope st = some st') :
    st'.scope_stack = st.scope_stack.tail ∧ st'.genome = st.genome ∧
    st'.inst_ptr = st.inst_ptr ∧ st'.call_stack = st.call_stack ∧
    st'.errors = st.errors ∧ st'.inputs = st.inputs ∧
    st'.outputs = st.outputs ∧ st'.auxStacks = st.auxStacks ∧
    st'.fun_starts = st.fun_starts ∧
    st'.reg_stack.IsSuffix st.reg_stack ∧
    1 < st.scope_stack.length ∧
    (st.reg_stack = [] → st'.regs = st.regs ∧ st'.reg_stack = []) := by
  unfold exitScope at h
  split at h
  case isFalse => exact Option.noConfusion h
  case isTrue hcond =>
    rcases hcs : curScope st with _ | cur
    · rw [hcs] at h
      simp at h
    · rw [hcs] at h
      simp only [Option.bind_eq_bind, Option.some_bind] at h
      rcases hrr : restoreRegs st.regs cur st.reg_stack with _ | ⟨regs', bs'⟩
      · rw [hrr] at h
        simp at h
      · rw [hrr] at h
        simp only [Option.bind_eq_bind, Option.some_bind, Option.pure_def,
          Option.some_inj] at h
        subst h
        refine ⟨rfl, rfl, rfl, rfl, rfl, rfl, rfl, rfl, rfl,
          restoreRegs_suffix cur st.reg_stack st.regs regs' bs' hrr,
          hcond.1, ?_⟩
        intro hnil
        rw [hnil, restoreRegs_nil] at hrr
        injection hrr with hp
        injection hp with hp1 hp2
        exact ⟨hp1.symm, hp2.symm⟩

theorem tail_getLast? {α : Type} (l : List α) (h : 1 < l.length) :
    l.tail.getLast? = l.getLast? := by
  match l, h with
  | a :: b :: t, _ => simp [List.getLast?_cons_cons]

theorem exitScope_length {st st' : AvidaState} (h : exitScope st = some st') :
    st'.scope_stack.length + 1 = st.scope_stack.length := by
  obtain ⟨hs, -, -, -, -, -, -, -, -, -, hlen, -⟩ := exitScope_spec h
  rw [hs, List.length_tail]
  omega

/-- What the forced scope-exit loop of `ResetIP` does to each component. -/
theorem exitAllAux_spec :
    ∀ (n : Nat) (st st' : AvidaState), exitAllAux n st = some st' →
      st'.genome = st.genome ∧ st'.inst_ptr = st.inst_ptr ∧
      st'.call_stack = st.call_stack ∧ st'.errors = st.errors ∧
      st'.inputs = st.inputs ∧ st'.outputs = st.outputs ∧
      st'.auxStacks = st.auxStacks ∧ st'.fun_starts = st.fun_starts ∧
      st'.scope_stack.length ≤ 1 ∧
      st'.scope_stack.getLast? = st.scope_stack.getLast? ∧
      st'.reg_stack.IsSuffix st.reg_stack ∧
      (st.reg_stack = [] → st'.regs = st.regs ∧ st'.reg_stack = []) := by
  intro n
  induction n with
  | zero =>
    intro st st' h
    unfold exitAllAux at h
    split at h
    · exact Option.noConfusion h
    · have : st = st' := Option.some_inj.mp h
      subst this
      simp_all [List.suffix_refl]
  | succ m ih =>
    intro st st' h
    unfold exitAllAux at h
    split at h
    case isFalse hlen =>
      have : st = st' := Option.some_inj.mp h
      subst this
      simp_all [List.suffix_refl]
    case isTrue hlen =>
      rcases hes : exitScope st with _ | st₁
      · rw [hes] at h; exact Option.noConfusion h
      · rw [hes] at h
        simp only [Option.bind_eq_bind, Option.some_bind] at h
        obtain ⟨h1, h2, h3, h4, h5, h6, h7, h8, h9, h10, h11, h12⟩ := ih st₁ st' h
        obtain ⟨e1, e2, e3, e4, e5, e6, e7, e8, e9, e10, e11, e12⟩ :=
          exitScope_spec hes
        refine ⟨h1.trans e2, h2.trans e3, h3.trans e4, h4.trans e5,
          h5.trans e6, h6.trans e7, h7.trans e8, h8.trans e9, h9, ?_, ?_, ?_⟩
        · rw [h10, e1, tail_getLast? _ hlen]
        · exact h11.trans e10
        · intro hnil
          obtain ⟨f1, f2⟩ := e12 hnil
          obtain ⟨g1, g2⟩ := h12 f2
          exact ⟨g1.trans f1, g2⟩

/-- What `ResetIP` does to each component. -/
theorem resetIP_spec {st st' : AvidaState} (h : resetIP st = some st') :
    st'.inst_ptr = 0 ∧ st'.call_stack = [] ∧ st'.genome = st.genome ∧
    st'.errors = st.errors ∧ st'.inputs = st.inputs ∧
    st'.outputs = st.outputs ∧ st'.auxStacks = st.auxStacks ∧
    st'.fun_starts = st.fun_starts ∧ st'.scope_stack.length ≤ 1 ∧
    st'.scope_stack.getLast? = st.scope_stack.getLast? ∧
    st'.reg_stack.IsSuffix st.reg_stack ∧
    (st.reg_stack = [] → st'.regs = st.regs ∧ st'.reg_stack = []) := by
  unfold resetIP exitAllScopes at h
  rcases hex : exitAllAux ({ st with inst_ptr := 0 } : AvidaState).scope_stack.length
      { st with inst_ptr := 0 } with _ | st₁
  · rw [hex] at h; exact Option.noConfusion h
  · rw [hex] at h
    simp only [Option.bind_eq_bind, Option.some_bind, Option.pure_def,
      Option.some_inj] at h
    obtain ⟨h1, h2, h3, h4, h5, h6, h7, h8, h9, h10, h11, h12⟩ :=
      exitAllAux_spec _ _ _ hex
    subst h
    exact ⟨h2, rfl, h1, h4, h5, h6, h7, h8, h9, h10, h11, h12⟩

theorem length_le_one_getLast? {α : Type} {l : List α} {r : α}
    (hlen : l.length ≤ 1) (hlast : l.getLast? = some r) : l = [r] := by
  match l, hlen, hlast with
  | [a], _, h => simp at h; rw [h]

/-!
## Claim C2 — function return past end of genome
-/

/-- C2, counterexample: on a FUNCTION-scope exit whose saved return position
(7) is past the end of the genome, the engine clears the call stack (the
saved entry 7 is **removed**, not left in place). -/
theorem C2_counterexample :
    (processInst 5 fwState ⟨.Scope, 0, 0, 0⟩).map (fun st => st.call_stack) =
      some [] ∧
    (processInst 5 fwState ⟨.Scope, 0, 0, 0⟩).map (fun st => st.call_stack) ≠
      some [7] := by
  exact ⟨by decide, by decide⟩

/-- C2 (amended): when a structured instruction with `new ≤ current` is
dispatched while the top scope frame is a FUNCTION frame and the saved return
position `rp` on top of the call stack is `≥ |genome|`, the engine performs
the hardware wrap `ResetIP`: it resets `inst_ptr` to 0, exits all non-root
scopes, **and clears the call stack** (the saved return entry is removed),
then re-dispatches `genome[0]` and reports the scope as not entered. -/
theorem C2_function_wrap (fuel : Nat) (st st₁ : AvidaState) (ns : Nat)
    (ty : ScopeType) (cs sp rp : Nat)
    (h1 : st.scope_stack.head? = some ⟨cs, .FUNCTION, sp⟩)
    (h2 : ns + 1 ≤ cs)
    (h3 : st.call_stack.head? = some rp)
    (h4 : st.genome.length ≤ rp)
    (h5 : resetIP { st with inst_ptr := rp } = some st₁) :
    updateScope (fuel + 1) st ns ty =
      (do
        let i ← st₁.genome.get? st₁.inst_ptr
        let st₂ ← processInst fuel st₁ i
        pure (false, st₂)) ∧
    st₁.inst_ptr = 0 ∧ st₁.call_stack = [] ∧
    st₁.scope_stack.length ≤ 1 ∧
    (∀ r, st.scope_stack.getLast? = some r → st₁.scope_stack = [r]) := by
  obtain ⟨p1, p2, p3, p4, p5, p6, p7, p8, p9, p10, p11, p12⟩ := resetIP_spec h5
  refine ⟨?_, p1, p2, p9, fun r hr => length_le_one_getLast? p9 (by rw [p10]; exact hr)⟩
  have hcs : curScope st = some cs := by simp [curScope, h1]
  have hcty : curScopeTy st = some ScopeType.FUNCTION := by simp [curScopeTy, h1]
  simp only [updateScope, hcs, hcty, Option.bind_eq_bind, Option.some_bind,
    if_neg (Nat.not_lt.mpr h2), h3, if_pos h4, h5]

/-- C2, witness for the amended theorem at the concrete wrap state. -/
theorem C2_witness :
    updateScope 3 fwState 0 ScopeType.BASIC =
      (do
        let i ← (setGenome initState [⟨.Inc, 0, 0, 0⟩]).genome.get?
          (setGenome initState [⟨.Inc, 0, 0, 0⟩]).inst_ptr
        let st₂ ← processInst 2 (setGenome initState [⟨.Inc, 0, 0, 0⟩]) i
        pure (false, st₂)) ∧
    (setGenome initState [⟨.Inc, 0, 0, 0⟩]).call_stack = [] := by
  have h := C2_function_wrap 2 fwState (setGenome initState [⟨.Inc, 0, 0, 0⟩])
    0 .BASIC 2 0 7 (by decide) (by decide) (by decide) (by decide) (by decide)
  exact ⟨h.1, h.2.2.1⟩

/-!
## Claim C6 — ResetHardware
-/

/-- C6, counterexample: (i) a `ScopeReg` executed at ROOT scope leaves a
backup entry that `ResetHardware` does **not** drain; (ii) after running
`srGenome`, `ResetHardware`'s forced scope exit restores the stale backup 9
into register 3, so `regs[3] ≠ 3` after the reset. -/
theorem C6_counterexample :
    ((processInst 1 initState ⟨.ScopeReg, 0, 0, 0⟩).bind resetHardware).map
        (fun st => st.reg_stack) = some [⟨0, 0, 0⟩] ∧
    ((processInst 1 initState ⟨.ScopeReg, 0, 0, 0⟩).bind resetHardware).map
        (fun st => st.reg_stack) ≠ some [] ∧
    ((process 5 3 (setGenome initState srGenome)).bind resetHardware).bind
        (fun st => arrGet st.regs 3) = some 9 ∧
    ((process 5 3 (setGenome initState srGenome)).bind resetHardware).bind
        (fun st => arrGet st.regs 3) ≠ some 3 := by
  exact ⟨by decide, by decide, by decide, by decide⟩

/-- C6 (amended): `ResetHardware` restores `inputs = outputs = 0`, empties
every auxiliary stack, sets every `fun_starts[i] = -1`, `errors = 0`,
`inst_ptr = 0`, clears the call stack, and collapses the scope stack to its
bottom frame; but the register-backup stack is only partially drained (a
suffix — in particular all ROOT-level backups — survives), registers are
reset to `regs[i] = i` only when no backups are restored over them (for
example when the backup stack was empty). -/
theorem C6_reset_hardware (st st' : AvidaState) (r : ScopeInfo)
    (hroot : st.scope_stack.getLast? = some r)
    (h : resetHardware st = some st') :
    st'.inputs = List.replicate REGS 0 ∧
    st'.outputs = List.replicate REGS 0 ∧
    st'.auxStacks = List.replicate REGS [] ∧
    st'.fun_starts = List.replicate REGS (-1) ∧
    st'.errors = 0 ∧ st'.inst_ptr = 0 ∧ st'.call_stack = [] ∧
    st'.scope_stack = [r] ∧
    st'.reg_stack.IsSuffix st.reg_stack ∧
    (st.reg_stack = [] → st'.regs = initRegs ∧ st'.reg_stack = []) := by
  unfold resetHardware at h
  obtain ⟨h1, h2, h3, h4, h5, h6, h7, h8, h9, h10, h11, h12⟩ := resetIP_spec h
  exact ⟨h5, h6, h7, h8, h4, h1, h2,
    length_le_one_getLast? h9 (by rw [h10]; exact hroot), h11, h12⟩

/-- C6, witness: resetting a state whose backup stack holds one ROOT-level
entry keeps that entry while restoring every other component. -/
theorem C6_witness :
    ({ initState with reg_stack := [⟨0, 0, 0⟩] } : AvidaState).errors = 0 ∧
    ({ initState with reg_stack := [⟨0, 0, 0⟩] } : AvidaState).scope_stack =
      [⟨0, .ROOT, 0⟩] ∧
    (({ initState with reg_stack := [⟨0, 0, 0⟩] } : AvidaState)).reg_stack.IsSuffix
      [⟨0, 0, 0⟩] := by
  have h := C6_reset_hardware { initState with reg_stack := [⟨0, 0, 0⟩] }
    { initState with reg_stack := [⟨0, 0, 0⟩] } ⟨0, .ROOT, 0⟩
    (by decide) (by decide)
  exact ⟨h.2.2.2.2.1, h.2.2.2.2.2.2.2.1, h.2.2.2.2.2.2.2.2.1⟩

/-!
## Claim C9 — genome printing indentation
-/

theorem ls_replicate (n : Nat) (l : List Char) :
    leadingSpaces (List.replicate n ' ' ++ l) = n + leadingSpaces l := by
  induction n with
  | zero => simp
  | succ m ih =>
    simp only [List.replicate_succ, List.cons_append, leadingSpaces,
      List.takeWhile_cons] at *
    simp [ih]
    omega

theorem ls_instName (id : InstID) (l : List Char) :
    leadingSpaces (instName id ++ l) = 0 := by
  cases id <;> rfl

theorem ls_instText (i : Inst) (l : List Char) :
    leadingSpaces (instText i ++ l) = 0 := by
  simp only [instText, List.append_assoc]
  exact ls_instName i.id _

theorem ls_text (i : Inst) : leadingSpaces (instText i) = 0 := by
  simpa using ls_instText i []

theorem ls_line (n : Nat) (i : Inst) (l : List Char) :
    leadingSpaces (List.replicate n ' ' ++ (instText i ++ l)) = n := by
  rw [ls_replicate, ls_instText]
  omega

theorem ls_line2 (n : Nat) (i : Inst) :
    leadingSpaces (List.replicate n ' ' ++ instText i) = n := by
  rw [ls_replicate, ls_text]
  omega

/-- C9, counterexample: in the printed form of `[Scope 0, Inc 5]` the `Inc`
line sits at scope depth 1 but is indented by **one** space, not the claimed
two spaces per depth. -/
theorem C9_counterexample :
    (printGenomeLines prGenome 0).map leadingSpaces = [0, 1] ∧
    (lineDepths prGenome 0).map (fun d => 2 * d) = [0, 2] ∧
    (printGenomeLines prGenome 0).map leadingSpaces ≠
      (lineDepths prGenome 0).map (fun d => 2 * d) := by
  exact ⟨by decide, by decide, by decide⟩

/-!
## Preservation lemmas for the scope-stack invariant
-/

theorem exitScope_scopeOK {st st' : AvidaState} (h : exitScope st = some st')
    (hok : ScopeOK st) : ScopeOK st' := by
  obtain ⟨e1, -, -, -, -, -, -, -, -, -, hlen, -⟩ := exitScope_spec h
  obtain ⟨hne, hlast, hchain⟩ := hok
  refine ⟨?_, ?_, ?_⟩
  · rw [e1]
    have hl := List.length_tail st.scope_stack
    intro h0
    rw [h0] at hl
    simp at hl
    omega
  · rw [e1, tail_getLast? _ hlen]
    exact hlast
  · rw [e1]
    exact hchain.tail

theorem scopeOK_congr {s t : AvidaState} (h : t.scope_stack = s.scope_stack)
    (hok : ScopeOK s) : ScopeOK t := by
  unfold ScopeOK at *
  rw [h]
  exact hok

theorem scopeOK_push {st : AvidaState} {cur ns ip : Nat} {ty : ScopeType}
    (hok : ScopeOK st) (hcs : curScope st = some cur) (hlt : cur < ns) :
    ScopeOK { st with scope_stack := ⟨ns, ty, ip⟩ :: st.scope_stack } := by
  obtain ⟨hne, hlast, hchain⟩ := hok
  refine ⟨by simp, ?_, ?_⟩
  · show (⟨ns, ty, ip⟩ :: st.scope_stack : List ScopeInfo).getLast? = _
    rcases hh : st.scope_stack with _ | ⟨fr, rest⟩
    · exact absurd hh hne
    · rw [List.getLast?_cons_cons, ← hh]
      exact hlast
  · show List.Chain' _ (⟨ns, ty, ip⟩ :: st.scope_stack)
    refine List.chain'_cons'.mpr ⟨?_, hchain⟩
    intro y hy
    have hyc : y.scope = cur := by
      rw [curScope, hy] at hcs
      simpa using hcs
    show y.scope < ns
    rw [hyc]
    exact hlt

theorem resetIP_scopeOK {st st' : AvidaState} (h : resetIP st = some st')
    (hok : ScopeOK st) : ScopeOK st' := by
  obtain ⟨-, -, -, -, -, -, -, -, p9, p10, -, -⟩ := resetIP_spec h
  obtain ⟨hne, hlast, -⟩ := hok
  have hstk : st'.scope_stack = [⟨0, .ROOT, 0⟩] :=
    length_le_one_getLast? p9 (by rw [p10]; exact hlast)
  exact ⟨by simp [hstk], by simp [hstk], by simp [hstk]⟩

/-- What `bypassScope` does to the components the claims track. -/
theorem bypassScope_spec {st st' : AvidaState} {sa : Nat}
    (h : bypassScope st sa = some st') :
    st'.genome = st.genome ∧ st'.errors = st.errors ∧
    st'.call_stack = st.call_stack ∧ (ScopeOK st → ScopeOK st') := by
  unfold bypassScope at h
  simp only [Option.bind_eq_bind] at h
  obtain ⟨cur, hcs, h⟩ := Option.bind_eq_some.mp h
  split at h
  · simp only [Option.pure_def, Option.some_inj] at h
    subst h
    exact ⟨rfl, rfl, rfl, fun hok => hok⟩
  · obtain ⟨st₁, hex, h⟩ := Option.bind_eq_some.mp h
    simp only [Option.pure_def, Option.some_inj] at h
    subst h
    obtain ⟨-, e2, -, e4, e5, -, -, -, -, -, -, -⟩ := exitScope_spec hex
    exact ⟨e2, e5, e4, fun hok => @scopeOK_congr st₁ _ rfl (exitScope_scopeOK hex hok)⟩

/-- The combined per-dispatch invariant, by induction on fuel: a dispatch
never modifies the genome, preserves the scope-stack invariant, and changes
`errors` only when a `Div` or `Mod` instruction executes (directly or through
a re-dispatch of a genome instruction). -/
theorem engine_invariants : ∀ fuel : Nat,
    (∀ st i st', processInst fuel st i = some st' →
      st'.genome = st.genome ∧ (ScopeOK st → ScopeOK st') ∧
      (noDivMod st.genome → i.id ≠ InstID.Div → i.id ≠ InstID.Mod →
        st'.errors = st.errors)) ∧
    (∀ st ns ty b st', updateScope fuel st ns ty = some (b, st') →
      st'.genome = st.genome ∧ (ScopeOK st → ScopeOK st') ∧
      (noDivMod st.genome → st'.errors = st.errors)) := by
  intro fuel
  induction fuel with
  | zero =>
    exact ⟨fun st i st' h => Option.noConfusion h,
           fun st ns ty b st' h => Option.noConfusion h⟩
  | succ f ih =>
    obtain ⟨ihP, ihU⟩ := ih
    refine ⟨?_, ?_⟩
    · intro st i st' h
      obtain ⟨id, a0, a1, a2⟩ := i
      cases id <;>
        simp only [processInst, Option.bind_eq_bind, Option.pure_def] at h
      case Inc =>
        obtain ⟨v, -, h⟩ := Option.bind_eq_some.mp h
        obtain ⟨r, -, h⟩ := Option.bind_eq_some.mp h
        have h' := Option.some_inj.mp h
        subst h'
        exact ⟨rfl, fun hok => @scopeOK_congr st _ rfl hok, fun _ _ _ => rfl⟩
      case Dec =>
        obtain ⟨v, -, h⟩ := Option.bind_eq_some.mp h
        obtain ⟨r, -, h⟩ := Option.bind_eq_some.mp h
        have h' := Option.some_inj.mp h
        subst h'
        exact ⟨rfl, fun hok => @scopeOK_congr st _ rfl hok, fun _ _ _ => rfl⟩
      case Not =>
        obtain ⟨v, -, h⟩ := Option.bind_eq_some.mp h
        obtain ⟨r, -, h⟩ := Option.bind_eq_some.mp h
        have h' := Option.some_inj.mp h
        subst h'
        exact ⟨rfl, fun hok => @scopeOK_congr st _ rfl hok, fun _ _ _ => rfl⟩
      case SetReg =>
        obtain ⟨r, -, h⟩ := Option.bind_eq_some.mp h
        have h' := Option.some_inj.mp h
        subst h'
        exact ⟨rfl, fun hok => @scopeOK_congr st _ rfl hok, fun _ _ _ => rfl⟩
      case Add =>
        obtain ⟨va, -, h⟩ := Option.bind_eq_some.mp h
        obtain ⟨vb, -, h⟩ := Option.bind_eq_some.mp h
        obtain ⟨r, -, h⟩ := Option.bind_eq_some.mp h
        have h' := Option.some_inj.mp h
        subst h'
        exact ⟨rfl, fun hok => @scopeOK_congr st _ rfl hok, fun _ _ _ => rfl⟩
      case Sub =>
        obtain ⟨va, -, h⟩ := Option.bind_eq_some.mp h
        obtain ⟨vb, -, h⟩ := Option.bind_eq_some.mp h
        obtain ⟨r, -, h⟩ := Option.bind_eq_some.mp h
        have h' := Option.some_inj.mp h
        subst h'
        exact ⟨rfl, fun hok => @scopeOK_congr st _ rfl hok, fun _ _ _ => rfl⟩
      case Mult =>
        obtain ⟨va, -, h⟩ := Option.bind_eq_some.mp h
        obtain ⟨vb, -, h⟩ := Option.bind_eq_some.mp h
        obtain ⟨r, -, h⟩ := Option.bind_eq_some.mp h
        have h' := Option.some_inj.mp h
        subst h'
        exact ⟨rfl, fun hok => @scopeOK_congr st _ rfl hok, fun _ _ _ => rfl⟩
      case Div =>
        obtain ⟨denom, -, h⟩ := Option.bind_eq_some.mp h
        split at h
        · have h' := Option.some_inj.mp h
          subst h'
          exact ⟨rfl, fun hok => @scopeOK_congr st _ rfl hok,
            fun _ hd _ => absurd rfl hd⟩
        · obtain ⟨va, -, h⟩ := Option.bind_eq_some.mp h
          obtain ⟨r, -, h⟩ := Option.bind_eq_some.mp h
          have h' := Option.some_inj.mp h
          subst h'
          exact ⟨rfl, fun hok => @scopeOK_congr st _ rfl hok, fun _ _ _ => rfl⟩
      case Mod =>
        obtain ⟨base, -, h⟩ := Option.bind_eq_some.mp h
        split at h
        · have h' := Option.some_inj.mp h
          subst h'
          exact ⟨rfl, fun hok => @scopeOK_congr st _ rfl hok,
            fun _ _ hm => absurd rfl hm⟩
        · obtain ⟨va, -, h⟩ := Option.bind_eq_some.mp h
          obtain ⟨r, -, h⟩ := Option.bind_eq_some.mp h
          have h' := Option.some_inj.mp h
          subst h'
          exact ⟨rfl, fun hok => @scopeOK_congr st _ rfl hok, fun _ _ _ => rfl⟩
      case TestEqu =>
        obtain ⟨va, -, h⟩ := Option.bind_eq_some.mp h
        obtain ⟨vb, -, h⟩ := Option.bind_eq_some.mp h
        obtain ⟨r, -, h⟩ := Option.bind_eq_some.mp h
        have h' := Option.some_inj.mp h
        subst h'
        exact ⟨rfl, fun hok => @scopeOK_congr st _ rfl hok, fun _ _ _ => rfl⟩
      case TestNEqu =>
        obtain ⟨va, -, h⟩ := Option.bind_eq_some.mp h
        obtain ⟨vb, -, h⟩ := Option.bind_eq_some.mp h
        obtain ⟨r, -, h⟩ := Option.bind_eq_some.mp h
        have h' := Option.some_inj.mp h
        subst h'
        exact ⟨rfl, fun hok => @scopeOK_congr st _ rfl hok, fun _ _ _ => rfl⟩
      case TestLess =>
        obtain ⟨va, -, h⟩ := Option.bind_eq_some.mp h
        obtain ⟨vb, -, h⟩ := Option.bind_eq_some.mp h
        obtain ⟨r, -, h⟩ := Option.bind_eq_some.mp h
        have h' := Option.some_inj.mp h
        subst h'
        exact ⟨rfl, fun hok => @scopeOK_congr st _ rfl hok, fun _ _ _ => rfl⟩
      case If =>
        obtain ⟨⟨b₁, st₁⟩, hu, h⟩ := Option.bind_eq_some.mp h
        obtain ⟨g1, s1, e1⟩ := ihU st a1 .BASIC b₁ st₁ hu
        cases b₁
        · have h' := Option.some_inj.mp h
          subst h'
          exact ⟨g1, s1, fun hnd _ _ => e1 hnd⟩
        · obtain ⟨v, -, h⟩ := Option.bind_eq_some.mp h
          split at h
          · obtain ⟨bg, be, -, bs⟩ := bypassScope_spec h
            exact ⟨bg.trans g1, fun hok => bs (s1 hok),
              fun hnd _ _ => be.trans (e1 hnd)⟩
          · have h' := Option.some_inj.mp h
            subst h'
            exact ⟨g1, s1, fun hnd _ _ => e1 hnd⟩
      case While =>
        obtain ⟨⟨b₁, st₁⟩, hu, h⟩ := Option.bind_eq_some.mp h
        obtain ⟨g1, s1, e1⟩ := ihU st a1 .LOOP b₁ st₁ hu
        cases b₁
        · have h' := Option.some_inj.mp h
          subst h'
          exact ⟨g1, s1, fun hnd _ _ => e1 hnd⟩
        · obtain ⟨v, -, h⟩ := Option.bind_eq_some.mp h
          split at h
          · obtain ⟨bg, be, -, bs⟩ := bypassScope_spec h
            exact ⟨bg.trans g1, fun hok => bs (s1 hok),
              fun hnd _ _ => be.trans (e1 hnd)⟩
          · have h' := Option.some_inj.mp h
            subst h'
            exact ⟨g1, s1, fun hnd _ _ => e1 hnd⟩
      case Countdown =>
        obtain ⟨⟨b₁, st₁⟩, hu, h⟩ := Option.bind_eq_some.mp h
        obtain ⟨g1, s1, e1⟩ := ihU st a1 .LOOP b₁ st₁ hu
        cases b₁
        · have h' := Option.some_inj.mp h
          subst h'
          exact ⟨g1, s1, fun hnd _ _ => e1 hnd⟩
        · obtain ⟨v, -, h⟩ := Option.bind_eq_some.mp h
          split at h
          · obtain ⟨bg, be, -, bs⟩ := bypassScope_spec h
            exact ⟨bg.trans g1, fun hok => bs (s1 hok),
              fun hnd _ _ => be.trans (e1 hnd)⟩
          · obtain ⟨r, -, h⟩ := Option.bind_eq_some.mp h
            have h' := Option.some_inj.mp h
            subst h'
            exact ⟨g1, fun hok => @scopeOK_congr st₁ _ rfl (s1 hok),
              fun hnd _ _ => e1 hnd⟩
      case Break =>
        obtain ⟨bg, be, -, bs⟩ := bypassScope_spec h
        exact ⟨bg, bs, fun _ _ _ => be⟩
      case Scope =>
        obtain ⟨⟨b₁, st₁⟩, hu, h⟩ := Option.bind_eq_some.mp h
        have h' := Option.some_inj.mp h
        subst h'
        obtain ⟨g1, s1, e1⟩ := ihU st a0 .BASIC b₁ st₁ hu
        exact ⟨g1, s1, fun hnd _ _ => e1 hnd⟩
      case Define =>
        obtain ⟨⟨b₁, st₁⟩, hu, h⟩ := Option.bind_eq_some.mp h
        obtain ⟨g1, s1, e1⟩ := ihU st a1 .BASIC b₁ st₁ hu
        cases b₁
        · have h' := Option.some_inj.mp h
          subst h'
          exact ⟨g1, s1, fun hnd _ _ => e1 hnd⟩
        · obtain ⟨fs, -, h⟩ := Option.bind_eq_some.mp h
          obtain ⟨bg, be, -, bs⟩ := bypassScope_spec h
          exact ⟨bg.trans g1,
            fun hok => bs (@scopeOK_congr st₁ _ rfl (s1 hok)),
            fun hnd _ _ => be.trans (e1 hnd)⟩
      case Call =>
        obtain ⟨fv, -, h⟩ := Option.bind_eq_some.mp h
        split at h
        · have h' := Option.some_inj.mp h
          subst h'
          exact ⟨rfl, fun hok => hok, fun _ _ _ => rfl⟩
        · obtain ⟨dInst, -, h⟩ := Option.bind_eq_some.mp h
          split at h
          · have h' := Option.some_inj.mp h
            subst h'
            exact ⟨rfl, fun hok => hok, fun _ _ _ => rfl⟩
          · obtain ⟨⟨b₁, st₁⟩, hu, h⟩ := Option.bind_eq_some.mp h
            obtain ⟨g1, s1, e1⟩ := ihU st dInst.arg1 .FUNCTION b₁ st₁ hu
            cases b₁
            · have h' := Option.some_inj.mp h
              subst h'
              exact ⟨g1, s1, fun hnd _ _ => e1 hnd⟩
            · have h' := Option.some_inj.mp h
              subst h'
              exact ⟨g1, fun hok => @scopeOK_congr st₁ _ rfl (s1 hok),
                fun hnd _ _ => e1 hnd⟩
      case Push =>
        obtain ⟨v, -, h⟩ := Option.bind_eq_some.mp h
        obtain ⟨stks, -, h⟩ := Option.bind_eq_some.mp h
        have h' := Option.some_inj.mp h
        subst h'
        exact ⟨rfl, fun hok => @scopeOK_congr st _ rfl hok, fun _ _ _ => rfl⟩
      case Pop =>
        obtain ⟨⟨v, stks⟩, -, h⟩ := Option.bind_eq_some.mp h
        obtain ⟨r, -, h⟩ := Option.bind_eq_some.mp h
        have h' := Option.some_inj.mp h
        subst h'
        exact ⟨rfl, fun hok => @scopeOK_congr st _ rfl hok, fun _ _ _ => rfl⟩
      case Input =>
        obtain ⟨v, -, h⟩ := Option.bind_eq_some.mp h
        obtain ⟨r, -, h⟩ := Option.bind_eq_some.mp h
        have h' := Option.some_inj.mp h
        subst h'
        exact ⟨rfl, fun hok => @scopeOK_congr st _ rfl hok, fun _ _ _ => rfl⟩
      case Output =>
        obtain ⟨v, -, h⟩ := Option.bind_eq_some.mp h
        obtain ⟨o, -, h⟩ := Option.bind_eq_some.mp h
        have h' := Option.some_inj.mp h
        subst h'
        exact ⟨rfl, fun hok => @scopeOK_congr st _ rfl hok, fun _ _ _ => rfl⟩
      case CopyVal =>
        obtain ⟨v, -, h⟩ := Option.bind_eq_some.mp h
        obtain ⟨r, -, h⟩ := Option.bind_eq_some.mp h
        have h' := Option.some_inj.mp h
        subst h'
        exact ⟨rfl, fun hok => @scopeOK_congr st _ rfl hok, fun _ _ _ => rfl⟩
      case ScopeReg =>
        obtain ⟨cur, -, h⟩ := Option.bind_eq_some.mp h
        obtain ⟨v, -, h⟩ := Option.bind_eq_some.mp h
        have h' := Option.some_inj.mp h
        subst h'
        exact ⟨rfl, fun hok => @scopeOK_congr st _ rfl hok, fun _ _ _ => rfl⟩
      case Unknown => exact Option.noConfusion h
    · intro st ns ty b st' h
      simp only [updateScope, Option.bind_eq_bind, Option.pure_def] at h
      obtain ⟨cur, hcs, h⟩ := Option.bind_eq_some.mp h
      split at h
      case isTrue hlt =>
        have h' := Option.some_inj.mp h
        injection h' with hb hst
        subst hst
        exact ⟨rfl, fun hok => scopeOK_push hok hcs hlt, fun _ => rfl⟩
      case isFalse hge =>
        obtain ⟨cty, hcty, h⟩ := Option.bind_eq_some.mp h
        cases cty
        case LOOP =>
          obtain ⟨fr, -, h⟩ := Option.bind_eq_some.mp h
          obtain ⟨st₂, hex, h⟩ := Option.bind_eq_some.mp h
          obtain ⟨i', hi', h⟩ := Option.bind_eq_some.mp h
          obtain ⟨st₃, hp, h⟩ := Option.bind_eq_some.mp h
          have h' := Option.some_inj.mp h
          injection h' with hb hst
          subst hst
          obtain ⟨-, eg, -, -, ee, -, -, -, -, -, -, -⟩ := exitScope_spec hex
          obtain ⟨pg, ps, pe⟩ := ihP st₂ i' st₃ hp
          have hg2 : st₂.genome = st.genome := eg
          refine ⟨pg.trans hg2, ?_, ?_⟩
          · intro hok
            exact ps (exitScope_scopeOK hex (@scopeOK_congr st _ rfl hok))
          · intro hnd
            have hmem : i' ∈ st.genome := by
              rw [← hg2]
              exact List.get?_mem hi'
            have hdm := hnd i' hmem
            exact (pe (by rw [hg2]; exact hnd) hdm.1 hdm.2).trans ee
        case FUNCTION =>
          obtain ⟨rp, -, h⟩ := Option.bind_eq_some.mp h
          split at h
          · obtain ⟨st₂, hw, h⟩ := Option.bind_eq_some.mp h
            obtain ⟨i', hi', h⟩ := Option.bind_eq_some.mp h
            obtain ⟨st₃, hp, h⟩ := Option.bind_eq_some.mp h
            have h' := Option.some_inj.mp h
            injection h' with hb hst
            subst hst
            obtain ⟨-, -, rg, re, -, -, -, -, -, -, -, -⟩ := resetIP_spec hw
            obtain ⟨pg, ps, pe⟩ := ihP st₂ i' st₃ hp
            have hg2 : st₂.genome = st.genome := rg
            refine ⟨pg.trans hg2,
              fun hok => ps (resetIP_scopeOK hw (@scopeOK_congr st _ rfl hok)),
              fun hnd => ?_⟩
            have hmem : i' ∈ st.genome := by
              rw [← hg2]
              exact List.get?_mem hi'
            have hdm := hnd i' hmem
            exact (pe (by rw [hg2]; exact hnd) hdm.1 hdm.2).trans re
          · obtain ⟨st₂, hw, h⟩ := Option.bind_eq_some.mp h
            obtain ⟨i', hi', h⟩ := Option.bind_eq_some.mp h
            obtain ⟨st₃, hp, h⟩ := Option.bind_eq_some.mp h
            have h' := Option.some_inj.mp h
            injection h' with hb hst
            subst hst
            obtain ⟨-, eg, -, -, ee, -, -, -, -, -, -, -⟩ := exitScope_spec hw
            obtain ⟨pg, ps, pe⟩ := ihP st₂ i' st₃ hp
            have hg2 : st₂.genome = st.genome := eg
            refine ⟨pg.trans hg2,
              fun hok => ps (exitScope_scopeOK hw (@scopeOK_congr st _ rfl hok)),
              fun hnd => ?_⟩
            have hmem : i' ∈ st.genome := by
              rw [← hg2]
              exact List.get?_mem hi'
            have hdm := hnd i' hmem
            exact (pe (by rw [hg2]; exact hnd) hdm.1 hdm.2).trans ee
        case ROOT =>
          obtain ⟨st₁, hex, h⟩ := Option.bind_eq_some.mp h
          obtain ⟨ug, us, ue⟩ := ihU st₁ (ns + 1) ty b st' h
          obtain ⟨-, eg, -, -, ee, -, -, -, -, -, -, -⟩ := exitScope_spec hex
          exact ⟨ug.trans eg, fun hok => us (exitScope_scopeOK hex hok),
            fun hnd => (ue (by rw [eg]; exact hnd)).trans ee⟩
        case BASIC =>
          obtain ⟨st₁, hex, h⟩ := Option.bind_eq_some.mp h
          obtain ⟨ug, us, ue⟩ := ihU st₁ (ns + 1) ty b st' h
          obtain ⟨-, eg, -, -, ee, -, -, -, -, -, -, -⟩ := exitScope_spec hex
          exact ⟨ug.trans eg, fun hok => us (exitScope_scopeOK hex hok),
            fun hnd => (ue (by rw [eg]; exact hnd)).trans ee⟩

theorem singleProcess_scopeOK {fuel : Nat} {st st' : AvidaState}
    (h : singleProcess fuel st = some st') (hok : ScopeOK st) : ScopeOK st' := by
  unfold singleProcess at h
  simp only [Option.bind_eq_bind, Option.pure_def] at h
  split at h
  · obtain ⟨st₁, hr, h⟩ := Option.bind_eq_some.mp h
    obtain ⟨i, -, h⟩ := Option.bind_eq_some.mp h
    obtain ⟨st₂, hp, h⟩ := Option.bind_eq_some.mp h
    have h' := Option.some_inj.mp h
    subst h'
    exact @scopeOK_congr st₂ _ rfl
      (((engine_invariants fuel).1 st₁ i st₂ hp).2.1 (resetIP_scopeOK hr hok))
  · obtain ⟨st₁, hr, h⟩ := Option.bind_eq_some.mp h
    obtain ⟨i, -, h⟩ := Option.bind_eq_some.mp h
    obtain ⟨st₂, hp, h⟩ := Option.bind_eq_some.mp h
    have h' := Option.some_inj.mp h
    subst h'
    have hst1 : st = st₁ := Option.some_inj.mp hr
    subst hst1
    exact @scopeOK_congr st₂ _ rfl
      (((engine_invariants fuel).1 st i st₂ hp).2.1 hok)

theorem process_scopeOK {fuel : Nat} :
    ∀ (k : Nat) {st st' : AvidaState}, process fuel k st = some st' →
      ScopeOK st → ScopeOK st' := by
  intro k
  induction k with
  | zero =>
    intro st st' h hok
    have h' := Option.some_inj.mp h
    subst h'
    exact hok
  | succ m ih =>
    intro st st' h hok
    obtain ⟨st₁, h1, h2⟩ := Option.bind_eq_some.mp h
    exact ih h2 (singleProcess_scopeOK h1 hok)

theorem resetHardware_scopeOK {st st' : AvidaState}
    (h : resetHardware st = some st') (hok : ScopeOK st) : ScopeOK st' := by
  unfold resetHardware at h
  exact resetIP_scopeOK h (@scopeOK_congr st _ rfl hok)

theorem reset_scopeOK {st st' : AvidaState} (h : reset st = some st')
    (hok : ScopeOK st) : ScopeOK st' := by
  unfold reset at h
  exact resetHardware_scopeOK h (@scopeOK_congr st _ rfl hok)

/-!
## Claim C7 — the scope-stack invariant
-/

theorem scopeOK_initState : ScopeOK initState :=
  ⟨by simp [initState], by simp [initState], by simp [initState]⟩

/-- C7: in the constructed state, and preserved by every executed instruction
and every public operation: the scope stack is non-empty, its bottom frame is
`(0, ROOT, 0)`, and the `scope` values strictly increase from bottom to top
(`ScopeOK`). -/
theorem C7_scope_stack_invariant :
    ScopeOK initState ∧
    (∀ fuel st i st', ScopeOK st → processInst fuel st i = some st' →
      ScopeOK st') ∧
    (∀ fuel st st', ScopeOK st → singleProcess fuel st = some st' →
      ScopeOK st') ∧
    (∀ fuel k st st', ScopeOK st → process fuel k st = some st' →
      ScopeOK st') ∧
    (∀ st st', ScopeOK st → resetIP st = some st' → ScopeOK st') ∧
    (∀ st st', ScopeOK st → resetHardware st = some st' → ScopeOK st') ∧
    (∀ st st', ScopeOK st → reset st = some st' → ScopeOK st') ∧
    (∀ st g, ScopeOK st → ScopeOK (setGenome st g)) ∧
    (∀ st i, ScopeOK st → ScopeOK (pushInst st i)) ∧
    (∀ st p i st', ScopeOK st → setInst st p i = some st' → ScopeOK st') := by
  refine ⟨scopeOK_initState, ?_, ?_, ?_, ?_, ?_, ?_, ?_, ?_, ?_⟩
  · intro fuel st i st' hok h
    exact ((engine_invariants fuel).1 st i st' h).2.1 hok
  · intro fuel st st' hok h
    exact singleProcess_scopeOK h hok
  · intro fuel k st st' hok h
    exact process_scopeOK k h hok
  · intro st st' hok h
    exact resetIP_scopeOK h hok
  · intro st st' hok h
    exact resetHardware_scopeOK h hok
  · intro st st' hok h
    exact reset_scopeOK h hok
  · intro st g hok
    exact @scopeOK_congr st _ rfl hok
  · intro st i hok
    exact @scopeOK_congr st _ rfl hok
  · intro st p i st' hok h
    unfold setInst at h
    split at h
    · have h' := Option.some_inj.mp h
      subst h'
      exact @scopeOK_congr st _ rfl hok
    · exact Option.noConfusion h

/-- C7, witness: the invariant holds in the constructed state and is carried
through loading the countdown genome and executing its first instruction. -/
theorem C7_witness : ScopeOK (setGenome initState cdGenome) :=
  C7_scope_stack_invariant.2.2.2.2.2.2.2.1 initState cdGenome scopeOK_initState

/-!
## Claim C5 — Div/Mod by zero and the errors counter
-/

/-- C5: when `regs[b] = 0`, `Div a b c` and `Mod a b c` each leave the whole
state — every register included — unchanged except for incrementing `errors`
by exactly one; with a non-zero divisor neither changes `errors`; and no
opcode other than an executed `Div`/`Mod` increments `errors` (for a genome
free of `Div`/`Mod`, dispatching any non-`Div`/`Mod` instruction, with all
its re-dispatches, preserves `errors`). -/
theorem C5_errors_only_div_mod_zero :
    (∀ fuel st a b c, arrGet st.regs b = some 0 →
      processInst (fuel + 1) st ⟨.Div, a, b, c⟩ =
        some { st with errors := st.errors + 1 } ∧
      processInst (fuel + 1) st ⟨.Mod, a, b, c⟩ =
        some { st with errors := st.errors + 1 }) ∧
    (∀ fuel st a b c v st', arrGet st.regs b = some v → v ≠ 0 →
      processInst (fuel + 1) st ⟨.Div, a, b, c⟩ = some st' →
      st'.errors = st.errors) ∧
    (∀ fuel st a b c v st', arrGet st.regs b = some v → v ≠ 0 →
      processInst (fuel + 1) st ⟨.Mod, a, b, c⟩ = some st' →
      st'.errors = st.errors) ∧
    (∀ fuel st i st', noDivMod st.genome → i.id ≠ InstID.Div →
      i.id ≠ InstID.Mod → processInst fuel st i = some st' →
      st'.errors = st.errors) := by
  refine ⟨?_, ?_, ?_, ?_⟩
  · intro fuel st a b c hb
    constructor <;> simp [processInst, hb]
  · intro fuel st a b c v st' hb hv h
    simp only [processInst, Option.bind_eq_bind, hb, Option.some_bind] at h
    rw [if_neg hv] at h
    obtain ⟨va, -, h⟩ := Option.bind_eq_some.mp h
    obtain ⟨r, -, h⟩ := Option.bind_eq_some.mp h
    have h' := Option.some_inj.mp h
    subst h'
    rfl
  · intro fuel st a b c v st' hb hv h
    simp only [processInst, Option.bind_eq_bind, hb, Option.some_bind] at h
    rw [if_neg hv] at h
    obtain ⟨va, -, h⟩ := Option.bind_eq_some.mp h
    obtain ⟨r, -, h⟩ := Option.bind_eq_some.mp h
    have h' := Option.some_inj.mp h
    subst h'
    rfl
  · intro fuel st i st' hnd hd hm h
    exact ((engine_invariants fuel).1 st i st' h).2.2 hnd hd hm

/-- C5, witness: dividing by the zero register 0 from the fresh state bumps
`errors` to 1 and leaves everything else (all registers included) intact. -/
theorem C5_witness :
    processInst 1 initState ⟨.Div, 3, 0, 5⟩ =
      some { initState with errors := initState.errors + 1 } ∧
    processInst 1 initState ⟨.Mod, 3, 0, 5⟩ =
      some { initState with errors := initState.errors + 1 } :=
  C5_errors_only_div_mod_zero.1 0 initState 3 0 5 (by decide)

/-- C9 (amended): every line emitted by `PrintGenome` (separator lines
included) is indented by exactly **one** space per current scope depth, the
depth being the fold of `InstScope` across the instruction sequence that
`PrintGenome`'s `cur_scope` accumulator performs. -/
theorem C9_indent_one_space_per_depth (g : List Inst) (cur : Nat) :
    (printGenomeLines g cur).map leadingSpaces = lineDepths g cur := by
  induction g generalizing cur with
  | nil => rfl
  | cons inst rest ih =>
    have h4 : leadingSpaces ['-', '-', '-', '-'] = 0 := rfl
    have h4' : leadingSpaces ("----".toList) = 0 := rfl
    simp only [printGenomeLines, lineDepths]
    by_cases hA : instScope inst ≠ 0 ∧ instScope inst = cur
    · have hcur : cur ≠ 0 := hA.2 ▸ hA.1
      simp [hA, hcur, ls_replicate, h4, h4', ls_line, ls_line2, ls_text, ih]
    · simp [hA, ls_line, ls_line2, ih]

end AvidaGP
